import Mathlib

/-
Verification of the uvsib pipeline core against its specification.

The Python source is shallowly embedded: database tables become lists of row
structures, stateful functions become explicit state-passing functions, and
the external pymatgen phase-diagram machinery is parametrised by a model
structure whose fields record the facts of that library the code relies on.
-/

namespace UVSib

/- ───────────────────────── Stage fan-in (CSPWorkChain) ─────────────────────
`CSPWorkChain.inspect_csp_calcs` and `CSPWorkChain.mh_energies` from
`workchains/csp.py`.  A fan-out of N jobs is a list of job results: `none`
when the sub-workchain did not finish ok or reading its outputs raised
(either way `failed_jobs` is incremented), `some l` when the list `l` of
structures was extracted from its outputs.  Structures are opaque (`Nat`). -/

/-- The structures accumulated by the inspection loop: each successful job's
structure list is appended to `self.ctx.csp_structures`. -/
def collectedStructures (results : List (Option (List Nat))) : List Nat :=
  results.foldl
    (fun acc r =>
      match r with
      | some l => acc ++ l
      | none => acc)
    []

/-- The `failed_jobs` counter of the inspection loops. -/
def failedJobs (results : List (Option (List Nat))) : Nat :=
  (results.filter Option.isNone).length

/-- `CSPWorkChain.inspect_csp_calcs`: returns the exit code 301
(`ERROR_CSP_FAILED`) when no structures were collected, or when
`failed_jobs / n_csp > 0.5`; otherwise the stage proceeds (`none`).
`n_csp` is the number of submitted jobs, i.e. `results.length`. -/
def inspect_csp_calcs (results : List (Option (List Nat))) : Option Nat :=
  if collectedStructures results = [] then some 301
  else if ((failedJobs results : ℚ) / (results.length : ℚ)) > 1/2 then some 301
  else none

/-- `CSPWorkChain.mh_energies` fan-in check: returns exit code 303
(`ERROR_MINIMAHOPPING_FAILED`) when `not all_entries or failed_jobs / n_mh > 0.5`.
Here each job result's `some l` is the entry list read from the job. -/
def mh_energies_check (results : List (Option (List Nat))) : Option Nat :=
  if collectedStructures results = [] ∨
      ((failedJobs results : ℚ) / (results.length : ℚ)) > 1/2 then some 303
  else none

/- ─────────────────── SurfaceBuilder store_results / adsorbates ────────────
`SurfaceBuilderWorkChain.store_results` from `workchains/surface_builder.py`
and `add_surface_adsorbate` from `db/utils.py`. -/

/-- A row of the `db_surface` table. -/
structure SurfaceRow where
  structure_uuid : String
  slab : Nat
deriving DecidableEq, Repr

/-- A row of the `db_surface_adsorbate` table. -/
structure AdsorbateRow where
  surface_id : Nat
  reaction : String
  adsorbate : String
  struct_payload : Nat
  energy : ℚ
deriving DecidableEq, Repr

/-- `add_slab` from `db/utils.py`: inserts a `DBSurface` row for the given
structure uuid and returns `True`.  (Only reachable from dead code in
`store_results`.) -/
def add_slab (surfaces : List SurfaceRow) (existing_uuid : String) (slab_dict : Nat) :
    Bool × List SurfaceRow :=
  (true, surfaces ++ [{ structure_uuid := existing_uuid, slab := slab_dict }])

/-- `SurfaceBuilderWorkChain.store_results`: the body is `return` followed by
a loop over `self.ctx.slabs_uuid` calling `add_slab`; the unconditional
`return` on the first line makes the loop dead code, so the surface table is
returned unmodified. -/
def store_results (slabs_uuid : List (List Nat × String)) (surfaces : List SurfaceRow) :
    List SurfaceRow :=
  surfaces

/-- `add_surface_adsorbate` from `db/utils.py`: opens a session, does nothing
(`pass`), and returns `True`; no `DBSurfaceAdsorbate` row is inserted. -/
def add_surface_adsorbate (structure_uuid adsorbate_name : String)
    (struct_payload : Nat) (adsorption_energy : ℚ)
    (adsorbates : List AdsorbateRow) : Bool × List AdsorbateRow :=
  (true, adsorbates)

/-- Number of successful jobs in a fan-out. -/
def succeededJobs (results : List (Option (List Nat))) : Nat :=
  (results.filter Option.isSome).length

/-- C1, claim as stated: the stage fails iff the failure ratio exceeds one
half or zero jobs succeeded. -/
def claimedStageFails (results : List (Option (List Nat))) : Prop :=
  ((failedJobs results : ℚ) / (results.length : ℚ)) > 1/2 ∨ succeededJobs results = 0

/- ───────────────────── MainWorkChain orchestrator (main.py) ────────────────
`MainWorkChain` caches its `DBComposition` row in `self.ctx.dbcomposition_row`
during `setup` and consults only that cached row in every guard; the store is
written through `update_row` with the whole cached `step_status` dict. -/

/-- The five pipeline stages of the `MainWorkChain.define` outline. -/
inductive Stage where
  | pd_ml
  | pd_verification
  | band_alignment
  | surface_builder
  | adsorbates
deriving DecidableEq, Repr

/-- The sequential order of the outline's stage blocks. -/
def stageOrder : List Stage :=
  [Stage.pd_ml, Stage.pd_verification, Stage.band_alignment,
    Stage.surface_builder, Stage.adsorbates]

/-- Python dict lookup `d.get(k)` on a `step_status` dict. -/
def dictGet : List (Stage × String) → Stage → Option String
  | [], _ => none
  | (k, v) :: rest, s => if k = s then some v else dictGet rest s

/-- Python dict update `d.update({k: v})` on a `step_status` dict. -/
def dictSet : List (Stage × String) → Stage → String → List (Stage × String)
  | [], s, v => [(s, v)]
  | (k, w) :: rest, s, v =>
      if k = s then (s, v) :: rest else (k, w) :: dictSet rest s v

/-- The columns of a `DBComposition` row that the orchestrator touches. -/
structure CompositionRow where
  status : String
  step : List (Stage × String)
deriving DecidableEq, Repr

/-- The overall `status` value written when stage `s` finishes ok:
`inspect_adsorbates` writes `Done`, every other inspect writes `Running`. -/
def statusAfterDone (s : Stage) : String :=
  if s = Stage.adsorbates then "Done" else "Running"

/-- One stage body plus its inspect step (e.g. `pd_ml` / `inspect_pd_ml`):
`update_row` first writes `Running` into the cached dict and the store, then
the sub-workchain result is inspected and `Done` (continue) or `Failed`
(abort with `ERROR_CALCULATION_FAILED`) is written.  Returns the new cached
row, the store writes in order, and whether the run continues. -/
def runStage (row : CompositionRow) (s : Stage) (ok : Bool) :
    CompositionRow × List CompositionRow × Bool :=
  let r1 : CompositionRow :=
    { status := "Running", step := dictSet row.step s "Running" }
  if ok then
    let r2 : CompositionRow :=
      { status := statusAfterDone s, step := dictSet r1.step s "Done" }
    (r2, [r1, r2], true)
  else
    let r2 : CompositionRow :=
      { status := "Failed", step := dictSet r1.step s "Failed" }
    (r2, [r1, r2], false)

/-- The outline over the remaining stage blocks.  A `should_run` guard
(`should_run_pd_ml` etc.) skips the block when the cached stage status is
`Done`.  A `should_wait` guard (`should_wait_pd_ml` etc.) enters the wait
loop when the cached stage status is `Running`; the loop body (`wait_sleep`,
`check_pythonjob_sleep`) never touches `self.ctx.dbcomposition_row`, so the
loop exits only by the sleep job failing, which aborts the whole run —
either way no further store write happens, modelled as stalling with an
empty write list. -/
def runMainGo : List Stage → CompositionRow → (Stage → Bool) →
    CompositionRow × List CompositionRow
  | [], row, _ => (row, [])
  | s :: rest, row, outcomes =>
    if dictGet row.step s = some "Done" then runMainGo rest row outcomes
    else if dictGet row.step s = some "Running" then (row, [])
    else
      let r := runStage row s (outcomes s)
      if r.2.2 then
        let next := runMainGo rest r.1 outcomes
        (next.1, r.2.1 ++ next.2)
      else (r.1, r.2.1)

/-- One `MainWorkChain` run: `setup` caches the composition row loaded from
the store, then the five stage blocks execute in order.  Returns the final
cached row and the ordered list of `update_row` store writes. -/
def runMain (row : CompositionRow) (outcomes : Stage → Bool) :
    CompositionRow × List CompositionRow :=
  runMainGo stageOrder row outcomes

/-- `MainWorkChain.should_wait_pd_ml`, reading the cached ctx row. -/
def should_wait_pd_ml (cached : CompositionRow) : Bool :=
  if dictGet cached.step Stage.pd_ml = some "Running" then true else false

/-- Modelled from the spec: the PipelineOrchestrator "must reconcile [its
cached row] against the store before each transition", so under the spec's
contract the wait guard is evaluated on the store's current row rather than
on the row cached at setup. -/
def should_wait_pd_ml_reconciled (store : CompositionRow) : Bool :=
  if dictGet store.step Stage.pd_ml = some "Running" then true else false

/-- `n` iterations of the `while_(should_wait_...)` body: `wait_sleep`
submits a sleep `PythonJob` and `check_pythonjob_sleep` inspects it,
aborting the run (`none`) when it failed; neither step reads or writes the
cached composition row or the store.  `ok k` is whether the k-th sleep job
finished ok. -/
def waitIterate (ok : Nat → Bool) : Nat → CompositionRow → Option CompositionRow
  | 0, row => some row
  | n + 1, row => if ok n then waitIterate ok n row else none

/- ─────────────── add_version_to_existing_structure (db/utils.py) ───────────
Versions live in `db_structure_version`; the columns a version carries
beyond its key (structure payload, energy, vasprun string, band info,
attributes) are modelled as one string-keyed attribute map, matching the
`add_attributes` dict whose entries are written with `setattr` on the
existing ORM object or passed to the `DBStructureVersion` constructor. -/

/-- Attribute map lookup (reading a column of a version row). -/
def attrGet : List (String × String) → String → Option String
  | [], _ => none
  | (k, v) :: rest, key => if k = key then some v else attrGet rest key

/-- One `setattr(existing_version, key, value)`. -/
def attrSet : List (String × String) → String → String → List (String × String)
  | [], key, v => [(key, v)]
  | (k, w) :: rest, key, v =>
      if k = key then (key, v) :: rest else (k, w) :: attrSet rest key v

/-- The `for key, value in add_attributes.items(): setattr(...)` loop. -/
def setattrs (attrs upd : List (String × String)) : List (String × String) :=
  upd.foldl (fun a kv => attrSet a kv.1 kv.2) attrs

/-- A row of `db_structure_version`. -/
structure VersionRow where
  structure_uuid : String
  method : String
  attrs : List (String × String)
deriving DecidableEq, Repr

/-- The `(structure_uuid, method)` key of a version row. -/
def keyOf (r : VersionRow) : String × String :=
  (r.structure_uuid, r.method)

/-- `session.query(DBStructureVersion).filter_by(structure_uuid=...,
method=...).first()`; also the read path (`query_structure` /
`query_structureversions_by_attributes` restricted to this key). -/
def query_version (table : List VersionRow) (uuid method : String) :
    Option VersionRow :=
  table.find? (fun r => r.structure_uuid == uuid && r.method == method)

/-- The `override` branch: the first matching row is updated in place via
`setattr` on each `add_attributes` item, then committed. -/
def overrideFirst : List VersionRow → String → String → List (String × String) →
    List VersionRow
  | [], _, _, _ => []
  | r :: rest, uuid, method, upd =>
      if r.structure_uuid == uuid && r.method == method then
        { r with attrs := setattrs r.attrs upd } :: rest
      else r :: overrideFirst rest uuid method upd

/-- `add_version_to_existing_structure` from `db/utils.py`.  Returns the
function's boolean result together with the table.  No path of the source
raises, so the `Except` error constructor — standing for a
`DuplicateVersion`-style exception — is never produced.  When a version with
the same `(structure_uuid, method)` exists: `error` returns `False`,
`ignore` returns `True`, `override` updates the row in place; any other
string falls through to the append branch. -/
def add_version_to_existing_structure (table : List VersionRow)
    (existing_uuid method : String) (add_attributes : List (String × String))
    (on_conflict : String) : Except Unit (Bool × List VersionRow) :=
  match query_version table existing_uuid method with
  | some _ =>
    if on_conflict = "error" then .ok (false, table)
    else if on_conflict = "ignore" then .ok (true, table)
    else if on_conflict = "override" then
      .ok (true, overrideFirst table existing_uuid method add_attributes)
    else
      .ok (true,
        table ++ [VersionRow.mk existing_uuid method (setattrs [] add_attributes)])
  | none =>
      .ok (true,
        table ++ [VersionRow.mk existing_uuid method (setattrs [] add_attributes)])

/-- The data-model invariant: at most one version per
`(structure_uuid, method)` pair. -/
def atMostOneVersion (t : List VersionRow) : Prop :=
  t.Pairwise (fun a b => ¬(a.structure_uuid = b.structure_uuid ∧ a.method = b.method))

/- ────────────────── StabilityFilter (workchains/utils.py) ──────────────────
`get_unique_low_energy` iterates `PhaseDiagram(entries).entries`, keeps the
entries of the requested chemical system whose energy above hull is below
the threshold, and deduplicates them with `matcher.fit` against the already
accepted primitive structures.  The external pymatgen machinery is
parametrised by `PDModel`, whose propositional fields record the facts of
the library that the proofs rely on. -/

/-- A `ComputedStructureEntry`: an identifier, the id of its structure
payload, its chemical system (`entry.composition.chemical_system`) and its
energy. -/
structure Entry where
  eid : Nat
  sid : Nat
  chemsys : String
  energy : ℚ
deriving DecidableEq, Repr

/-- The pymatgen machinery used by `get_unique_low_energy`.  `order E` is
`PhaseDiagram(E).entries`: pymatgen stably sorts the input by reduced
composition (no energy sort), so it is a permutation of the input and
entries of one composition keep their input order.  `ehull E e` is
`PhaseDiagram(E).get_e_above_hull(e)`.  `findPrim`/`structOf` are
`SpacegroupAnalyzer(entry.structure, ...).find_primitive()` and
`entry.structure`.  `fit` is `matcher.fit` on two (primitive) structures.
`elemRefs els method` is `get_element_entries(els, method)`, the elemental
reference entries read from the bundled reference table.  `compSystem` is
`Composition(formula).chemical_system`.  The recorded library facts:
`orderPerm` — the phase diagram's entry sequence is a permutation of its
input; `hullMono` — removing entries can only raise the convex hull, so the
energy above hull of a remaining entry does not increase; `fitSymm` — the
structure matcher is symmetric. -/
structure PDModel where
  order : List Entry → List Entry
  ehull : List Entry → Entry → ℚ
  findPrim : Entry → Option Nat
  structOf : Entry → Nat
  fit : Nat → Nat → Bool
  elemRefs : List String → String → List Entry
  compSystem : String → String
  orderPerm : ∀ E, (order E).Perm E
  hullMono : ∀ E F e, e ∈ F → F ⊆ E → ehull F e ≤ ehull E e
  fitSymm : ∀ a b, fit a b = fit b a

/-- `sga.find_primitive() or entry.structure`. -/
def primOf (M : PDModel) (e : Entry) : Nat :=
  (M.findPrim e).getD (M.structOf e)

/-- Python's `"-" in chemical_system` substring test: the dash occurs among
the characters of the chemical-system string. -/
def hasDash (cs : String) : Bool := cs.data.contains '-'

/-- The `_EHULL = 0.05` module constant. -/
def EHULL : ℚ := 5/100

/-- The retention predicate of the loop (matching chemical system and energy
above hull strictly below the threshold — the source skips entries with
`pd.get_e_above_hull(entry) >= ehull_threshold`). -/
def keepEntry (M : PDModel) (pdE : List Entry) (cs : String) (θ : ℚ)
    (e : Entry) : Bool :=
  e.chemsys == cs && decide (M.ehull pdE e < θ)

/-- The `for entry in pd.entries` loop of `get_unique_low_energy`: skip
entries of another chemical system, skip entries at or above the threshold,
skip entries whose primitive structure fits an already accepted one, and
otherwise accept, appending the primitive structure to `existing_structs`.
`pdE` is the entry list the phase diagram was built from and `existing` the
accepted primitive structures so far. -/
def dedupLoop (M : PDModel) (pdE : List Entry) (cs : String) (θ : ℚ) :
    List Entry → List Nat → List Entry
  | [], _ => []
  | e :: rest, existing =>
    if e.chemsys ≠ cs then dedupLoop M pdE cs θ rest existing
    else if θ ≤ M.ehull pdE e then dedupLoop M pdE cs θ rest existing
    else if existing.any (fun s => M.fit (primOf M e) s) then
      dedupLoop M pdE cs θ rest existing
    else e :: dedupLoop M pdE cs θ rest (existing ++ [primOf M e])

/-- `get_unique_low_energy(entries, chemical_system, ehull_threshold)` from
`workchains/utils.py`.  `PhaseDiagram(entries)` cannot be constructed from
an empty entry list (there is no hull to build), which is modelled as
`Except.error`; the library also raises "Missing terminal entries" when
some element of the entries lacks an elemental reference entry.  That
second failure mode is not modelled here: every concrete entry list this
file evaluates the function on contains the needed elemental entries (via
the references `unique_low_energy_comp` appends), so it stays on the
success path in the library as well. -/
def get_unique_low_energy (M : PDModel) (entries : List Entry) (cs : String)
    (θ : ℚ) : Except String (List Entry) :=
  if entries = [] then .error "PhaseDiagram: no entries"
  else .ok (dedupLoop M entries cs θ (M.order entries) [])

/-- `unique_low_energy_comp(chemical_formula, entries, method)`: computes
the chemical system of the formula, extends the entries with the elemental
reference entries when the system has more than one element (the source
tests `"-" in chemical_system`), and calls `get_unique_low_energy` with the
default `_EHULL` threshold. -/
def unique_low_energy_comp (M : PDModel) (chemical_formula : String)
    (entries : List Entry) (method : String) : Except String (List Entry) :=
  let cs := M.compSystem chemical_formula
  let entries' :=
    if hasDash cs then
      entries ++ M.elemRefs (cs.splitOn "-") method
    else entries
  get_unique_low_energy M entries' cs EHULL

/-- A concrete `PDModel` instance for witnesses and counterexamples,
consistent with every recorded library fact: the phase diagram keeps the
entry order (entries of one reduced composition stay in input order under
pymatgen's stable composition sort), the hull sits at zero energy so the
energy above hull is the entry's own energy, no primitive cell is found so
`entry.structure` is used, structures fit exactly when their payloads are
equal, and the reference table holds one zero-energy elemental entry for
each of the elements A and B. -/
def Mstd : PDModel where
  order := fun E => E
  ehull := fun _ e => e.energy
  findPrim := fun _ => none
  structOf := fun e => e.sid
  fit := fun a b => a == b
  elemRefs := fun _ _ => [Entry.mk 900 900 "A" 0, Entry.mk 901 901 "B" 0]
  compSystem := fun f => f
  orderPerm := fun E => List.Perm.refl E
  hullMono := fun _ _ _ _ _ => le_refl _
  fitSymm := fun a b => by
    by_cases h : a = b
    · subst h
      rfl
    · show (a == b) = (b == a)
      rw [beq_eq_false_iff_ne.mpr h, beq_eq_false_iff_ne.mpr (Ne.symm h)]

/- ───────────── DBChemsys cleanup (workchains/phase_diagram.py) ─────────────
`inspect_csp_cals` / `inspect_gen_calcs` collect, on a failed generation
stage, the chemical systems whose `DBChemsys` row exists with a falsy
`gen_structures` field, and `cleanup_failed_systems` removes the first
matching row for each collected system. -/

/-- A row of the `db_chemsys` table: primary key, chemical system, and the
nullable `gen_structures` column, which the generation stage sets to
`"Ready"` and which is NULL until then. -/
structure ChemsysRow where
  rid : Nat
  chemsys : String
  gen_structures : Option String
deriving DecidableEq, Repr

/-- Python truthiness of the nullable string column `gen_structures`. -/
def truthy : Option String → Bool
  | none => false
  | some s => s != ""

/-- `query_by_columns(DBChemsys, {"chemsys": c})`: matching rows in table
order. -/
def queryChemsys (t : List ChemsysRow) (c : String) : List ChemsysRow :=
  t.filter (fun r => r.chemsys == c)

/-- `delete_row(DBChemsys, row)`: `DELETE ... WHERE uuid == row.uuid`. -/
def chemsys_delete_row (t : List ChemsysRow) (r : ChemsysRow) : List ChemsysRow :=
  t.filter (fun x => x.rid != r.rid)

/-- `cleanup_failed_systems(chemical_systems)` from
`workchains/phase_diagram.py`: for each listed system, delete the first
matching `DBChemsys` row when one exists. -/
def cleanup_failed_systems : List String → List ChemsysRow → List ChemsysRow
  | [], t => t
  | c :: rest, t =>
    match queryChemsys t c with
    | [] => cleanup_failed_systems rest t
    | r :: _ => cleanup_failed_systems rest (chemsys_delete_row t r)

/-- The collection loop of the failure branch of
`PhaseDiagramMLWorkChain.inspect_csp_cals` (and `inspect_gen_calcs`): a
system of `self.ctx.chemical_systems` is marked failed when its first
`DBChemsys` row exists and has a falsy `gen_structures`. -/
def failed_chemsys (chemical_systems : List String) (t : List ChemsysRow) :
    List String :=
  chemical_systems.filter
    (fun c =>
      match queryChemsys t c with
      | [] => false
      | r :: _ => ! truthy r.gen_structures)

/-- The whole failure path: collect the failed systems against the current
table, then run `cleanup_failed_systems` on them. -/
def inspect_failure_cleanup (chemical_systems : List String)
    (t : List ChemsysRow) : List ChemsysRow :=
  cleanup_failed_systems (failed_chemsys chemical_systems t) t

/- ─────────── IntakeController: add_from_frontend (workflows.py) ────────────
A submission request against the three tables it touches (`db_frontend`,
`db_composition`, `db_chemsys`) plus the list of submitted main workchains.
`Composition(...).reduced_formula` and the subsystem enumeration of
`get_chemical_systems` (pymatgen compositions) are parameters. -/

/-- The columns of a `db_frontend` row the intake logic touches. -/
structure FrontendRow where
  username : String
  composition : String
  status : String
  step_status : Option (List (Stage × String))
deriving DecidableEq, Repr

/-- The columns of a `db_composition` row the intake logic touches. -/
structure CompRow where
  composition : String
  status : String
  step_status : List (Stage × String)
deriving DecidableEq, Repr

/-- One intake record `{user, chemical_formula, model, reaction, retry}`. -/
structure SubmissionEntry where
  user : String
  chemical_formula : String
  model : String
  reaction : String
  retry : Bool
deriving DecidableEq, Repr

/-- The persistent state the intake path reads and writes: the frontend and
composition tables, the `chemsys` column values of `db_chemsys`, and the
chemical formulas of the `MainWorkChain` instances submitted so far. -/
structure IntakeState where
  frontend : List FrontendRow
  comps : List CompRow
  chemsys_names : List String
  submitted : List String
deriving DecidableEq, Repr

/-- `submit_mainworkchain` from `workchains/submit.py`: a fresh
`MainSubmissionController` submits one `MainWorkChain` for the formula. -/
def submit_mainworkchain (chemical_formula : String) (st : IntakeState) :
    IntakeState :=
  { st with submitted := st.submitted ++ [chemical_formula] }

/-- `update_row` applied to one frontend row in `update_dbfrontend`: copy the
status and step status of the first composition row with the frontend row's
composition; `none` models the `IndexError` of `query_by_columns(...)[0]`
when no composition row exists. -/
def fe_sync_row (comps : List CompRow) (r : FrontendRow) : Option FrontendRow :=
  match comps.filter (fun c => c.composition == r.composition) with
  | [] => none
  | c :: _ => some { r with status := c.status, step_status := some c.step_status }

/-- One pass of `update_dbfrontend` for a given status value: every frontend
row currently holding that status is synced from its composition row. -/
def fe_pass (comps : List CompRow) (status : String) :
    List FrontendRow → Option (List FrontendRow)
  | [] => some []
  | r :: rest =>
    if r.status == status then
      match fe_sync_row comps r with
      | none => none
      | some r' => (fe_pass comps status rest).map (fun f => r' :: f)
    else (fe_pass comps status rest).map (fun f => r :: f)

/-- `update_dbfrontend` from `workflows/workflows.py`: three passes, one per
status value in `["Created", "Running", "Failed"]`. -/
def update_dbfrontend (st : IntakeState) : Option IntakeState :=
  match fe_pass st.comps "Created" st.frontend with
  | none => none
  | some f1 =>
    match fe_pass st.comps "Running" f1 with
    | none => none
    | some f2 =>
      match fe_pass st.comps "Failed" f2 with
      | none => none
      | some f3 => some { st with frontend := f3 }

/-- The tail of the intake loop body once the request is not skipped:
`get_chemical_systems(..., new=True)` filters the enumerated subsystems down
to those without a `DBChemsys` row, one row per new system is added, the
main workchain is submitted, and `update_dbfrontend` runs. -/
def start_pipeline (subsystems : String → List String)
    (chemical_formula : String) (st : IntakeState) : Option IntakeState :=
  let new_chemsys := (subsystems chemical_formula).filter
    (fun c => ! st.chemsys_names.contains c)
  let st3 := { st with chemsys_names := st.chemsys_names ++ new_chemsys }
  update_dbfrontend (submit_mainworkchain chemical_formula st3)

/-- One iteration of the `add_from_frontend` loop from
`workflows/workflows.py`: reduce the formula, add the frontend row when the
(user, formula) pair is new, add the composition row when the formula is
new, then either skip (`continue`) — for an already-seen pair with
`retry=false`, or with the composition `Running` — or start the pipeline.
`none` models the `IndexError` of `existing_composition[0]` reached when
the pair is seen, `retry` is set, and no composition row existed at query
time. -/
def add_from_frontend_step (subsystems : String → List String)
    (reduce : String → String) (e : SubmissionEntry) (st : IntakeState) :
    Option IntakeState :=
  let chemical_formula := reduce e.chemical_formula
  let existing_frontend_rows :=
    st.frontend.filter (fun r => r.composition == chemical_formula)
  let user_already_exists :=
    existing_frontend_rows.any (fun r => r.username == e.user)
  let st1 :=
    if user_already_exists then st
    else { st with frontend := st.frontend ++
      [FrontendRow.mk e.user chemical_formula "Created" none] }
  let existing_composition :=
    st1.comps.filter (fun c => c.composition == chemical_formula)
  let st2 :=
    if existing_composition.isEmpty then
      { st1 with comps := st1.comps ++ [CompRow.mk chemical_formula "Created" []] }
    else st1
  if user_already_exists then
    if ¬ e.retry then some st2
    else
      match existing_composition with
      | [] => none
      | c :: _ =>
        if c.status == "Running" then some st2
        else start_pipeline subsystems chemical_formula st2
  else start_pipeline subsystems chemical_formula st2

/-- `add_from_frontend(dict_from_frontend_list)`: the loop over all
submitted records. -/
def add_from_frontend (subsystems : String → List String)
    (reduce : String → String) :
    List SubmissionEntry → IntakeState → Option IntakeState
  | [], st => some st
  | e :: rest, st =>
    match add_from_frontend_step subsystems reduce e st with
    | none => none
    | some st' => add_from_frontend subsystems reduce rest st'

/- ════════════════════════════ END OF DEFINITIONS ═══════════════════════════
All theorems and lemmas follow. -/

theorem collectedStructures_append (rs : List (Option (List Nat))) (r : Option (List Nat)) :
    collectedStructures (rs ++ [r]) =
      collectedStructures rs ++ (match r with | some l => l | none => []) := by
  have h : ∀ (acc : List Nat),
      (rs ++ [r]).foldl
        (fun acc r =>
          match r with
          | some l => acc ++ l
          | none => acc) acc =
      rs.foldl
        (fun acc r =>
          match r with
          | some l => acc ++ l
          | none => acc) acc ++ (match r with | some l => l | none => []) := by
    intro acc
    induction rs generalizing acc with
    | nil => cases r <;> simp
    | cons a tl ih => cases a <;> simp [List.foldl_cons, ih]
  exact h []

theorem collectedStructures_eq_nil_iff (rs : List (Option (List Nat))) :
    collectedStructures rs = [] ↔ ∀ l, some l ∈ rs → l = [] := by
  induction rs using List.reverseRecOn with
  | nil => simp [collectedStructures]
  | append_singleton tl r ih =>
    rw [collectedStructures_append]
    cases r with
    | none =>
      simp only [List.append_nil, ih]
      constructor
      · intro h l hl
        rcases List.mem_append.mp hl with h1 | h1
        · exact h l h1
        · simp at h1
      · intro h l hl
        exact h l (List.mem_append.mpr (Or.inl hl))
    | some l0 =>
      simp only [List.append_eq_nil]
      constructor
      · rintro ⟨h1, h2⟩ l hl
        rcases List.mem_append.mp hl with hm | hm
        · exact ih.mp h1 l hm
        · simp at hm; subst hm; exact h2
      · intro h
        refine ⟨ih.mpr fun l hl => h l (List.mem_append.mpr (Or.inl hl)), ?_⟩
        exact h l0 (List.mem_append.mpr (Or.inr (by simp)))

theorem succeededJobs_eq_zero_iff (rs : List (Option (List Nat))) :
    succeededJobs rs = 0 ↔ ∀ r ∈ rs, r = none := by
  unfold succeededJobs
  rw [List.length_eq_zero, List.filter_eq_nil]
  constructor
  · intro h r hr
    have := h r hr
    cases r with
    | none => rfl
    | some l => simp [Option.isSome] at this
  · intro h r hr
    rw [h r hr]
    simp [Option.isSome]

theorem failedJobs_eq_length_iff (rs : List (Option (List Nat))) :
    failedJobs rs = rs.length ↔ ∀ r ∈ rs, r = none := by
  unfold failedJobs
  constructor
  · intro h r hr
    have hall := (List.filter_length_eq_length (p := Option.isNone) (l := rs)).mp h r hr
    cases r with
    | none => rfl
    | some l => simp [Option.isNone] at hall
  · intro h
    refine (List.filter_length_eq_length (p := Option.isNone)).mpr ?_
    intro r hr
    rw [h r hr]
    rfl

theorem collected_nil_iff_all_none (rs : List (Option (List Nat)))
    (h : ∀ l, some l ∈ rs → l ≠ []) :
    collectedStructures rs = [] ↔ ∀ r ∈ rs, r = none := by
  rw [collectedStructures_eq_nil_iff]
  constructor
  · intro hc r hr
    cases r with
    | none => rfl
    | some l => exact absurd (hc l hr) (h l hr)
  · intro hn l hl
    have := hn (some l) hl
    simp at this

/-- C1 (counterexample): a fan-out of one job that finishes ok but returns an
empty structure list.  No job reports failure and the one job succeeded, so
the claim requires the stage to proceed; `inspect_csp_calcs` nevertheless
fails with `ERROR_CSP_FAILED` because `self.ctx.csp_structures` is empty. -/
theorem C1_stage_failure_counterexample :
    inspect_csp_calcs [some ([] : List Nat)] = some 301 ∧
      ¬ claimedStageFails [some ([] : List Nat)] := by
  constructor
  · simp [inspect_csp_calcs, collectedStructures]
  · intro h
    rcases h with h | h
    · simp only [failedJobs, List.filter, Option.isNone, List.length] at h
      norm_num at h
    · simp [succeededJobs, List.filter, Option.isSome] at h

/-- C1 (amended): provided every successful job contributes at least one
structure, the stage fails if and only if the failure ratio exceeds 0.5 or
zero jobs succeeded; the same holds for the MinimaHopping fan-in of
`mh_energies`.  Without that proviso the code's failure condition is "no
structures were collected", which is strictly stronger than "zero jobs
succeeded" (see the counterexample). -/
theorem C1_stage_failure_ratio (results : List (Option (List Nat)))
    (h : ∀ l, some l ∈ results → l ≠ []) :
    (inspect_csp_calcs results = some 301 ↔ claimedStageFails results) ∧
      (mh_energies_check results = some 303 ↔ claimedStageFails results) := by
  have hnil : collectedStructures results = [] ↔ succeededJobs results = 0 := by
    rw [collected_nil_iff_all_none results h, succeededJobs_eq_zero_iff]
  have hmain : (collectedStructures results = [] ∨
      ((failedJobs results : ℚ) / (results.length : ℚ)) > 1/2) ↔
        claimedStageFails results := by
    unfold claimedStageFails
    constructor
    · rintro (hA | hB)
      · exact Or.inr (hnil.mp hA)
      · exact Or.inl hB
    · rintro (hB | hA)
      · exact Or.inr hB
      · exact Or.inl (hnil.mpr hA)
  constructor
  · unfold inspect_csp_calcs
    by_cases hc : collectedStructures results = []
    · rw [if_pos hc]
      exact ⟨fun _ => hmain.mp (Or.inl hc), fun _ => rfl⟩
    · rw [if_neg hc]
      by_cases hr : ((failedJobs results : ℚ) / (results.length : ℚ)) > 1/2
      · rw [if_pos hr]
        exact ⟨fun _ => hmain.mp (Or.inr hr), fun _ => rfl⟩
      · rw [if_neg hr]
        constructor
        · intro hx
          exact absurd hx (by simp)
        · intro hcl
          rcases hmain.mpr hcl with h1 | h1
          · exact (hc h1).elim
          · exact (hr h1).elim
  · unfold mh_energies_check
    by_cases hd : collectedStructures results = [] ∨
        ((failedJobs results : ℚ) / (results.length : ℚ)) > 1/2
    · rw [if_pos hd]
      exact ⟨fun _ => hmain.mp hd, fun _ => rfl⟩
    · rw [if_neg hd]
      constructor
      · intro hx
        exact absurd hx (by simp)
      · intro hcl
        exact (hd (hmain.mpr hcl)).elim

/-- C1 (witness): the amended theorem applied at the claim's boundary
fan-out N=10, f=6, which fails; a direct evaluation shows N=10, f=5
succeeds. -/
theorem C1_stage_failure_ratio_witness :
    (∀ l, some l ∈ ([none, none, none, none, none, none,
        some [1], some [1], some [1], some [1]] : List (Option (List Nat))) → l ≠ []) ∧
    (inspect_csp_calcs [none, none, none, none, none, none,
        some [1], some [1], some [1], some [1]] = some 301 ↔
      claimedStageFails [none, none, none, none, none, none,
        some [1], some [1], some [1], some [1]]) ∧
    inspect_csp_calcs [none, none, none, none, none, none,
        some [1], some [1], some [1], some [1]] = some 301 ∧
    inspect_csp_calcs [none, none, none, none, none,
        some [1], some [1], some [1], some [1], some [1]] = none := by
  have hmem : ∀ l, some l ∈ ([none, none, none, none, none, none,
      some [1], some [1], some [1], some [1]] : List (Option (List Nat))) → l ≠ [] := by
    intro l hl
    simp at hl
    simp [hl]
  refine ⟨hmem, (C1_stage_failure_ratio _ hmem).1, ?_, ?_⟩
  · have hf : failedJobs [none, none, none, none, none, none,
        some [1], some [1], some [1], some [1]] = 6 := by decide
    unfold inspect_csp_calcs
    rw [if_neg (by decide)]
    simp only [hf, List.length_cons, List.length_nil]
    rw [if_pos (by norm_num)]
  · have hf : failedJobs [none, none, none, none, none,
        some [1], some [1], some [1], some [1], some [1]] = 5 := by decide
    unfold inspect_csp_calcs
    rw [if_neg (by decide)]
    simp only [hf, List.length_cons, List.length_nil]
    rw [if_neg (by norm_num)]

/-- C10: derived-artifact persistence is a no-op at the public interface:
`SurfaceBuilderWorkChain.store_results` returns before its dead loop and
leaves the surface table unchanged, and `add_surface_adsorbate` returns
`True` without inserting any adsorbate row. -/
theorem C10_derived_persistence_noop (slabs : List (List Nat × String))
    (surfaces : List SurfaceRow) (u a : String) (sp : Nat) (e : ℚ)
    (ads : List AdsorbateRow) :
    store_results slabs surfaces = surfaces ∧
      add_surface_adsorbate u a sp e ads = (true, ads) :=
  ⟨rfl, rfl⟩

theorem dictGet_dictSet_ne (m : List (Stage × String)) (s s' : Stage) (v : String)
    (h : s' ≠ s) : dictGet (dictSet m s' v) s = dictGet m s := by
  induction m with
  | nil => simp [dictSet, dictGet, h]
  | cons kv rest ih =>
    obtain ⟨k, w⟩ := kv
    by_cases hk : k = s'
    · subst hk
      simp only [dictSet, if_pos rfl, dictGet, if_neg h]
    · simp only [dictSet, if_neg hk, dictGet]
      by_cases hs : k = s
      · rw [if_pos hs, if_pos hs]
      · rw [if_neg hs, if_neg hs, ih]

theorem runMainGo_done_invariant (stages : List Stage) (row : CompositionRow)
    (outcomes : Stage → Bool) (s : Stage) (h : dictGet row.step s = some "Done") :
    dictGet (runMainGo stages row outcomes).1.step s = some "Done" ∧
      ∀ w ∈ (runMainGo stages row outcomes).2, dictGet w.step s = some "Done" := by
  induction stages generalizing row with
  | nil => exact ⟨h, by simp [runMainGo]⟩
  | cons s' rest ih =>
    by_cases h1 : dictGet row.step s' = some "Done"
    · simpa [runMainGo, h1] using ih row h
    · have hne : s' ≠ s := by
        intro he
        subst he
        exact h1 h
      by_cases h2 : dictGet row.step s' = some "Running"
      · refine ⟨?_, ?_⟩ <;> simp [runMainGo, h1, h2, h]
      · cases hok : outcomes s' with
        | true =>
          have hstep :
              dictGet (dictSet (dictSet row.step s' "Running") s' "Done") s =
                some "Done" := by
            rw [dictGet_dictSet_ne _ _ _ _ hne, dictGet_dictSet_ne _ _ _ _ hne, h]
          have hrow1 : dictGet (dictSet row.step s' "Running") s = some "Done" := by
            rw [dictGet_dictSet_ne _ _ _ _ hne, h]
          have hrec := ih (CompositionRow.mk (statusAfterDone s')
            (dictSet (dictSet row.step s' "Running") s' "Done")) hstep
          constructor
          · simpa [runMainGo, h1, h2, runStage, hok] using hrec.1
          · intro w hw
            simp only [runMainGo, if_neg h1, if_neg h2, runStage, hok,
              List.mem_append, List.mem_cons, List.not_mem_nil, or_false,
              if_true] at hw
            rcases hw with (hw | hw) | hw
            · subst hw; exact hrow1
            · subst hw; exact hstep
            · exact hrec.2 w hw
        | false =>
          have hstep :
              dictGet (dictSet (dictSet row.step s' "Running") s' "Failed") s =
                some "Done" := by
            rw [dictGet_dictSet_ne _ _ _ _ hne, dictGet_dictSet_ne _ _ _ _ hne, h]
          have hrow1 : dictGet (dictSet row.step s' "Running") s = some "Done" := by
            rw [dictGet_dictSet_ne _ _ _ _ hne, h]
          constructor
          · simpa [runMainGo, h1, h2, runStage, hok] using hstep
          · intro w hw
            simp only [runMainGo, if_neg h1, if_neg h2, runStage, hok,
              List.mem_append, List.mem_cons, List.not_mem_nil, or_false,
              if_false, Bool.false_eq_true, ite_false] at hw
            rcases hw with hw | hw
            · subst hw; exact hrow1
            · subst hw; exact hstep

/-- C2: per-stage status is monotone across orchestrator runs: a run of
`MainWorkChain` on a composition whose cached row (loaded from the store at
setup) marks stage `s` as `Done` never writes any other value for `s` to the
store — every store write of the run, and the final cached row, still map
`s` to `Done`, and in particular never to `Pending` or `Running`. -/
theorem C2_done_stage_monotone (row : CompositionRow) (outcomes : Stage → Bool)
    (s : Stage) (h : dictGet row.step s = some "Done") :
    dictGet (runMain row outcomes).1.step s = some "Done" ∧
      ∀ w ∈ (runMain row outcomes).2, dictGet w.step s = some "Done" :=
  runMainGo_done_invariant stageOrder row outcomes s h

/-- C2 (witness): a composition with `pd_ml` already `Done` keeps it `Done`
through a full successful run. -/
theorem C2_done_stage_monotone_witness :
    dictGet (CompositionRow.mk "Running" [(Stage.pd_ml, "Done")]).step Stage.pd_ml
        = some "Done" ∧
      dictGet (runMain (CompositionRow.mk "Running" [(Stage.pd_ml, "Done")])
          (fun _ => true)).1.step Stage.pd_ml = some "Done" :=
  ⟨by decide,
    (C2_done_stage_monotone (CompositionRow.mk "Running" [(Stage.pd_ml, "Done")])
      (fun _ => true) Stage.pd_ml (by decide)).1⟩

theorem waitIterate_fix (ok : Nat → Bool) (n : Nat) (row row' : CompositionRow)
    (h : waitIterate ok n row = some row') : row' = row := by
  induction n with
  | zero =>
    simp [waitIterate] at h
    exact h.symm
  | succ n ih =>
    by_cases hok : ok n
    · exact ih (by simpa [waitIterate, hok] using h)
    · simp [waitIterate, hok] at h

/-- C8 (counterexample): the orchestrator's guards do not observe store
writes made after `setup`.  With the cached row holding `pd_ml = Running`
and the store since updated to `pd_ml = Done`, the source guard
`should_wait_pd_ml` (which reads the cached ctx row) still waits, while the
spec's reconciled guard on the store's current row would stop waiting; the
run stalls with no store writes. -/
theorem C8_counterexample :
    should_wait_pd_ml (CompositionRow.mk "Running" [(Stage.pd_ml, "Running")]) = true ∧
      should_wait_pd_ml_reconciled
        (CompositionRow.mk "Running" [(Stage.pd_ml, "Done")]) = false ∧
      runMain (CompositionRow.mk "Running" [(Stage.pd_ml, "Running")]) (fun _ => true) =
        (CompositionRow.mk "Running" [(Stage.pd_ml, "Running")], []) := by
  refine ⟨by decide, by decide, ?_⟩
  decide

/-- C8 (amended): every guard reads the composition row cached at setup;
store writes after setup are not observed.  A wait loop entered on a cached
`Running` stage keeps waiting after any number of iterations (it can only
abort the run via a failed sleep job), and the run performs no store
write. -/
theorem C8_guards_read_cached_view (row : CompositionRow) (outcomes : Stage → Bool)
    (ok : Nat → Bool) (n : Nat) (h : dictGet row.step Stage.pd_ml = some "Running") :
    (∀ row', waitIterate ok n row = some row' → should_wait_pd_ml row' = true) ∧
      runMain row outcomes = (row, []) := by
  constructor
  · intro row' hrow
    rw [waitIterate_fix ok n row row' hrow]
    simp [should_wait_pd_ml, h]
  · have hnd : ¬ dictGet row.step Stage.pd_ml = some "Done" := by
      rw [h]
      simp
    simp [runMain, stageOrder, runMainGo, hnd, h]

/-- C8 (witness): the amended theorem at a concrete cached row with `pd_ml`
running, three wait iterations with succeeding sleep jobs. -/
theorem C8_guards_read_cached_view_witness :
    (∀ row', waitIterate (fun _ => true) 3
        (CompositionRow.mk "Running" [(Stage.pd_ml, "Running")]) = some row' →
        should_wait_pd_ml row' = true) ∧
      runMain (CompositionRow.mk "Running" [(Stage.pd_ml, "Running")])
        (fun _ => false) =
        (CompositionRow.mk "Running" [(Stage.pd_ml, "Running")], []) :=
  C8_guards_read_cached_view
    (CompositionRow.mk "Running" [(Stage.pd_ml, "Running")])
    (fun _ => false) (fun _ => true) 3 (by decide)

theorem overrideFirst_keys (t : List VersionRow) (u m : String)
    (upd : List (String × String)) :
    (overrideFirst t u m upd).map keyOf = t.map keyOf := by
  induction t with
  | nil => rfl
  | cons r rest ih =>
    by_cases hr : r.structure_uuid == u && r.method == m
    · simp [overrideFirst, hr, keyOf]
    · simp [overrideFirst, hr, ih]

theorem atMostOneVersion_iff_keys (t : List VersionRow) :
    atMostOneVersion t ↔
      (t.map keyOf).Pairwise (fun a b => ¬(a.1 = b.1 ∧ a.2 = b.2)) := by
  unfold atMostOneVersion
  rw [List.pairwise_map]
  rfl

theorem atMostOneVersion_override (t : List VersionRow) (u m : String)
    (upd : List (String × String)) (h : atMostOneVersion t) :
    atMostOneVersion (overrideFirst t u m upd) := by
  rw [atMostOneVersion_iff_keys, overrideFirst_keys]
  exact (atMostOneVersion_iff_keys t).mp h

theorem atMostOneVersion_append_new (t : List VersionRow) (u m : String)
    (a : List (String × String)) (h : atMostOneVersion t)
    (hnone : query_version t u m = none) :
    atMostOneVersion (t ++ [VersionRow.mk u m (setattrs [] a)]) := by
  unfold atMostOneVersion
  rw [List.pairwise_append]
  refine ⟨h, by simp, ?_⟩
  intro x hx y hy
  simp only [List.mem_singleton] at hy
  subst hy
  intro hcon
  have := List.find?_eq_none.mp hnone x hx
  simp only [Bool.and_eq_true, beq_iff_eq] at this
  exact this ⟨hcon.1, hcon.2⟩

theorem query_version_override (t : List VersionRow) (u m : String)
    (upd : List (String × String)) (r : VersionRow)
    (h : query_version t u m = some r) :
    query_version (overrideFirst t u m upd) u m =
      some { r with attrs := setattrs r.attrs upd } := by
  induction t with
  | nil => simp [query_version] at h
  | cons x rest ih =>
    by_cases hx : (x.structure_uuid == u && x.method == m) = true
    · have h' := h
      simp only [query_version, List.find?_cons, hx] at h'
      injection h' with hxr
      subst hxr
      simp [query_version, overrideFirst, hx, List.find?_cons]
    · have hxf : (x.structure_uuid == u && x.method == m) = false := by
        simpa using hx
      have h' : query_version rest u m = some r := by
        have h0 := h
        simp only [query_version, List.find?_cons, hxf] at h0
        exact h0
      have goal' := ih h'
      simp only [overrideFirst, hxf, Bool.false_eq_true, if_false]
      simp only [query_version, List.find?_cons, hxf]
      exact goal'

/-- C3 (counterexample): appending a second version for an existing
`(candidateId="x", method="GGA")` pair under `on_conflict="error"` does not
raise any exception: the call returns normally with `False` (there is no
`DuplicateVersion` error anywhere in the code), leaving the table
unchanged. -/
theorem C3_conflict_error_returns_false :
    add_version_to_existing_structure
        [VersionRow.mk "x" "GGA" [("energy", "E1")]] "x" "GGA"
        [("energy", "E2")] "error" =
      Except.ok (false, [VersionRow.mk "x" "GGA" [("energy", "E1")]]) := by
  rfl

/-- C3 (amended): with an existing `(structure_uuid, method)` pair, `error`
returns `False` (no exception is raised; no `DuplicateVersion` type exists)
and leaves the stored version unchanged; `ignore` raises nothing and
preserves the original row; `override` replaces the stored attributes in
place so subsequent reads return the new values; and each of the three
policies preserves the at-most-one-version-per-pair invariant. -/
theorem C3_conflict_policies (t : List VersionRow) (u m : String)
    (attrs : List (String × String)) (r : VersionRow)
    (hrow : query_version t u m = some r) :
    add_version_to_existing_structure t u m attrs "error" = Except.ok (false, t) ∧
      add_version_to_existing_structure t u m attrs "ignore" = Except.ok (true, t) ∧
      (add_version_to_existing_structure t u m attrs "override" =
          Except.ok (true, overrideFirst t u m attrs) ∧
        query_version (overrideFirst t u m attrs) u m =
          some { r with attrs := setattrs r.attrs attrs }) ∧
      (∀ t₂ u₂ m₂ a₂ oc b t₂',
        (oc = "error" ∨ oc = "ignore" ∨ oc = "override") →
        atMostOneVersion t₂ →
        add_version_to_existing_structure t₂ u₂ m₂ a₂ oc = Except.ok (b, t₂') →
        atMostOneVersion t₂') := by
  refine ⟨?_, ?_, ⟨?_, query_version_override t u m attrs r hrow⟩, ?_⟩
  · simp [add_version_to_existing_structure, hrow]
  · simp [add_version_to_existing_structure, hrow]
  · simp [add_version_to_existing_structure, hrow]
  · intro t₂ u₂ m₂ a₂ oc b t₂' hoc hinv hcall
    unfold add_version_to_existing_structure at hcall
    cases hq : query_version t₂ u₂ m₂ with
    | some r₂ =>
      rw [hq] at hcall
      rcases hoc with hoc | hoc | hoc
      · subst hoc
        simp at hcall
        obtain ⟨hb, ht⟩ := hcall
        subst ht
        exact hinv
      · subst hoc
        simp at hcall
        obtain ⟨hb, ht⟩ := hcall
        subst ht
        exact hinv
      · subst hoc
        simp at hcall
        obtain ⟨hb, ht⟩ := hcall
        subst ht
        exact atMostOneVersion_override t₂ u₂ m₂ a₂ hinv
    | none =>
      rw [hq] at hcall
      simp at hcall
      obtain ⟨hb, ht⟩ := hcall
      subst ht
      exact atMostOneVersion_append_new t₂ u₂ m₂ a₂ hinv hq

/-- C3 (witness): the amended theorem at the concrete table holding one
version for `("x", "GGA")`. -/
theorem C3_conflict_policies_witness :
    query_version [VersionRow.mk "x" "GGA" [("energy", "E1")]] "x" "GGA" =
        some (VersionRow.mk "x" "GGA" [("energy", "E1")]) ∧
      add_version_to_existing_structure
          [VersionRow.mk "x" "GGA" [("energy", "E1")]] "x" "GGA"
          [("energy", "E2")] "ignore" =
        Except.ok (true, [VersionRow.mk "x" "GGA" [("energy", "E1")]]) :=
  ⟨by rfl,
    (C3_conflict_policies [VersionRow.mk "x" "GGA" [("energy", "E1")]] "x" "GGA"
      [("energy", "E2")] (VersionRow.mk "x" "GGA" [("energy", "E1")])
      (by rfl)).2.1⟩

theorem dedupLoop_cons_cases (M : PDModel) (pdE : List Entry) (cs : String)
    (θ : ℚ) (x : Entry) (rest : List Entry) (existing : List Nat) :
    (dedupLoop M pdE cs θ (x :: rest) existing =
        dedupLoop M pdE cs θ rest existing ∧
      (keepEntry M pdE cs θ x = false ∨
        existing.any (fun s => M.fit (primOf M x) s) = true)) ∨
    (dedupLoop M pdE cs θ (x :: rest) existing =
        x :: dedupLoop M pdE cs θ rest (existing ++ [primOf M x]) ∧
      keepEntry M pdE cs θ x = true ∧
      existing.any (fun s => M.fit (primOf M x) s) = false) := by
  by_cases h1 : x.chemsys ≠ cs
  · refine Or.inl ⟨by simp only [dedupLoop, if_pos h1], Or.inl ?_⟩
    simp [keepEntry, beq_eq_false_iff_ne.mpr h1]
  · have hc : x.chemsys = cs := not_not.mp h1
    by_cases h2 : θ ≤ M.ehull pdE x
    · refine Or.inl ⟨by simp only [dedupLoop, if_neg h1, if_pos h2], Or.inl ?_⟩
      simp [keepEntry, decide_eq_false (not_lt.mpr h2)]
    · have hkeep : keepEntry M pdE cs θ x = true := by
        simp [keepEntry, hc, decide_eq_true (not_le.mp h2)]
      by_cases h3 : existing.any (fun s => M.fit (primOf M x) s) = true
      · exact Or.inl ⟨by simp only [dedupLoop, if_neg h1, if_neg h2, if_pos h3],
          Or.inr h3⟩
      · refine Or.inr ⟨?_, hkeep, by simpa using h3⟩
        simp only [dedupLoop, if_neg h1, if_neg h2]
        rw [if_neg h3]

theorem dedupLoop_skip (M : PDModel) (pdE : List Entry) (cs : String) (θ : ℚ)
    (S rest : List Entry) (existing : List Nat)
    (h : ∀ e ∈ S, e.chemsys ≠ cs) :
    dedupLoop M pdE cs θ (S ++ rest) existing =
      dedupLoop M pdE cs θ rest existing := by
  induction S with
  | nil => rfl
  | cons e S' ih =>
    have he : e.chemsys ≠ cs := h e (by simp)
    simp only [List.cons_append, dedupLoop, if_pos he]
    exact ih (fun x hx => h x (by simp [hx]))

theorem dedupLoop_subset (M : PDModel) (pdE : List Entry) (cs : String) (θ : ℚ)
    (L : List Entry) (existing : List Nat) :
    ∀ e ∈ dedupLoop M pdE cs θ L existing, e ∈ L := by
  induction L generalizing existing with
  | nil => intro e he; simp [dedupLoop] at he
  | cons x rest ih =>
    intro e he
    rcases dedupLoop_cons_cases M pdE cs θ x rest existing with ⟨heq, _⟩ | ⟨heq, _, _⟩
    · rw [heq] at he
      exact List.mem_cons_of_mem x (ih existing e he)
    · rw [heq] at he
      rcases List.mem_cons.mp he with he | he
      · exact he ▸ List.mem_cons_self x rest
      · exact List.mem_cons_of_mem x (ih (existing ++ [primOf M x]) e he)

theorem dedupLoop_mem_keep (M : PDModel) (pdE : List Entry) (cs : String) (θ : ℚ)
    (L : List Entry) (existing : List Nat) :
    ∀ e ∈ dedupLoop M pdE cs θ L existing, keepEntry M pdE cs θ e = true := by
  induction L generalizing existing with
  | nil => intro e he; simp [dedupLoop] at he
  | cons x rest ih =>
    intro e he
    rcases dedupLoop_cons_cases M pdE cs θ x rest existing with ⟨heq, _⟩ | ⟨heq, hk, _⟩
    · rw [heq] at he
      exact ih existing e he
    · rw [heq] at he
      rcases List.mem_cons.mp he with he | he
      · exact he ▸ hk
      · exact ih (existing ++ [primOf M x]) e he

theorem dedupLoop_nofit_existing (M : PDModel) (pdE : List Entry) (cs : String)
    (θ : ℚ) (L : List Entry) (existing : List Nat) :
    ∀ e ∈ dedupLoop M pdE cs θ L existing, ∀ s ∈ existing,
      M.fit (primOf M e) s = false := by
  induction L generalizing existing with
  | nil => intro e he; simp [dedupLoop] at he
  | cons x rest ih =>
    intro e he s hs
    rcases dedupLoop_cons_cases M pdE cs θ x rest existing with ⟨heq, _⟩ | ⟨heq, _, hany⟩
    · rw [heq] at he
      exact ih existing e he s hs
    · rw [heq] at he
      rcases List.mem_cons.mp he with he | he
      · subst he
        exact Bool.eq_false_iff.mpr ((List.any_eq_false.mp hany) s hs)
      · exact ih (existing ++ [primOf M x]) e he s (List.mem_append_left _ hs)

theorem dedupLoop_pairwise (M : PDModel) (pdE : List Entry) (cs : String) (θ : ℚ)
    (L : List Entry) (existing : List Nat) :
    (dedupLoop M pdE cs θ L existing).Pairwise
      (fun a b => M.fit (primOf M b) (primOf M a) = false) := by
  induction L generalizing existing with
  | nil => simp [dedupLoop]
  | cons x rest ih =>
    rcases dedupLoop_cons_cases M pdE cs θ x rest existing with ⟨heq, _⟩ | ⟨heq, _, _⟩
    · rw [heq]
      exact ih existing
    · rw [heq]
      refine List.Pairwise.cons ?_ (ih (existing ++ [primOf M x]))
      intro b hb
      exact dedupLoop_nofit_existing M pdE cs θ rest (existing ++ [primOf M x]) b hb
        (primOf M x) (List.mem_append_right _ (by simp))

theorem dedupLoop_all_accepted (M : PDModel) (pdE : List Entry) (cs : String)
    (θ : ℚ) (L : List Entry) (existing : List Nat)
    (hex : ∀ e ∈ L, keepEntry M pdE cs θ e = true → ∀ s ∈ existing,
      M.fit (primOf M e) s = false)
    (hpair : L.Pairwise (fun a b => keepEntry M pdE cs θ a = true →
      keepEntry M pdE cs θ b = true → M.fit (primOf M b) (primOf M a) = false)) :
    dedupLoop M pdE cs θ L existing = L.filter (keepEntry M pdE cs θ) := by
  induction L generalizing existing with
  | nil => rfl
  | cons x rest ih =>
    rcases List.pairwise_cons.mp hpair with ⟨hhead, htail⟩
    by_cases hk : keepEntry M pdE cs θ x = true
    · have hany : existing.any (fun s => M.fit (primOf M x) s) = false := by
        rw [List.any_eq_false]
        intro s hs
        exact Bool.eq_false_iff.mp (hex x (by simp) hk s hs)
      rcases dedupLoop_cons_cases M pdE cs θ x rest existing with
        ⟨heq, hsk | hsk⟩ | ⟨heq, _, _⟩
      · rw [hk] at hsk; cases hsk
      · rw [hany] at hsk; cases hsk
      · rw [heq, List.filter_cons_of_pos hk]
        congr 1
        refine ih (existing ++ [primOf M x]) ?_ htail
        intro e hemem hekeep s hs
        rcases List.mem_append.mp hs with hs | hs
        · exact hex e (by simp [hemem]) hekeep s hs
        · simp only [List.mem_singleton] at hs
          subst hs
          exact hhead e hemem hk hekeep
    · rcases dedupLoop_cons_cases M pdE cs θ x rest existing with
        ⟨heq, _⟩ | ⟨heq, hk2, _⟩
      · rw [heq, List.filter_cons_of_neg (by simpa using hk)]
        refine ih existing ?_ htail
        intro e hemem hekeep s hs
        exact hex e (by simp [hemem]) hekeep s hs
      · exact absurd hk2 hk

/-- C4 (counterexample): two structurally identical candidates of the A-B
system — A at energy above hull 0.0 (eid 1) and B at 0.02 (eid 2),
threshold 0.05 — submitted to `unique_low_energy_comp` in the order B
before A.  The call appends the zero-energy elemental reference entries for
A and B, so the phase diagram has its terminal entries and constructs;
pymatgen then orders entries by reduced composition only (a stable sort),
so the two A-B entries keep their input order and the loop iterates B
first; the filter keeps B and discards A, while the claim requires A to be
kept and B discarded for every such population. -/
theorem C4_dedup_energy_order_counterexample :
    unique_low_energy_comp Mstd "A-B"
        [Entry.mk 2 7 "A-B" (1/50), Entry.mk 1 7 "A-B" 0] "GGA" =
      Except.ok [Entry.mk 2 7 "A-B" (1/50)] ∧
      Entry.mk 1 7 "A-B" 0 ∉ [Entry.mk 2 7 "A-B" (1/50)] := by
  constructor
  · simp only [unique_low_energy_comp, Mstd]
    rw [if_pos (by decide)]
    unfold get_unique_low_energy
    rw [if_neg (by simp)]
    norm_num [dedupLoop, primOf, EHULL]
    all_goals decide
  · norm_num [Entry.mk.injEq]

/-- Core of the dedup-order analysis, generic over the entry list the phase
diagram was built from: when that list is non-empty and its phase-diagram
order lists two structurally equivalent below-threshold candidates A then B
of the target system, everything else being of other chemical systems, the
loop of `get_unique_low_energy` returns exactly the first-listed A. -/
theorem get_unique_first_representative (M : PDModel) (cs : String) (θ : ℚ)
    (E : List Entry) (A B : Entry) (L1 L2 L3 : List Entry)
    (horder : M.order E = L1 ++ A :: (L2 ++ B :: L3))
    (hA : A.chemsys = cs) (hB : B.chemsys = cs)
    (hAe : M.ehull E A < θ) (hBe : M.ehull E B < θ)
    (hfit : M.fit (primOf M B) (primOf M A) = true)
    (hskip : ∀ e, (e ∈ L1 ∨ e ∈ L2 ∨ e ∈ L3) → e.chemsys ≠ cs)
    (hE : E ≠ []) :
    get_unique_low_energy M E cs θ = Except.ok [A] := by
  unfold get_unique_low_energy
  rw [if_neg hE, horder]
  rw [dedupLoop_skip M E cs θ L1 _ [] (fun e he => hskip e (Or.inl he))]
  simp only [dedupLoop]
  rw [if_neg (fun hne => hne hA), if_neg (not_le.mpr hAe), if_neg (by simp)]
  simp only [List.nil_append]
  rw [dedupLoop_skip M E cs θ L2 _ [primOf M A]
    (fun e he => hskip e (Or.inr (Or.inl he)))]
  simp only [dedupLoop]
  rw [if_neg (fun hne => hne hB), if_neg (not_le.mpr hBe), if_pos (by simp [hfit])]
  rw [← List.append_nil L3, dedupLoop_skip M E cs θ L3 [] [primOf M A]
    (fun e he => hskip e (Or.inr (Or.inr he)))]
  rfl

/-- C4 (amended): deduplication keeps the representative that comes first in
the phase diagram's entry sequence, not the lower-energy one.  Stated at the
`unique_low_energy_comp` entry point, so `E₁` — the list the phase diagram
is actually built from — carries the appended elemental reference entries
for a multi-element formula and the diagram has its terminal entries.  When
the phase-diagram order of `E₁` lists two structurally equivalent
below-threshold candidates A then B of the target system, everything else
(the reference entries included) being of other chemical systems, the
filter returns exactly the first-listed A.  pymatgen's
`PhaseDiagram.entries` is ordered by reduced composition with a stable sort
— not by ascending energy above hull — so for equal-composition candidates
the input order, not the energy, decides the winner. -/
theorem C4_dedup_first_representative (M : PDModel) (formula method : String)
    (E E₁ : List Entry) (A B : Entry) (L1 L2 L3 : List Entry)
    (hE₁def : E₁ = if hasDash (M.compSystem formula) then
      E ++ M.elemRefs ((M.compSystem formula).splitOn "-") method else E)
    (horder : M.order E₁ = L1 ++ A :: (L2 ++ B :: L3))
    (hA : A.chemsys = M.compSystem formula)
    (hB : B.chemsys = M.compSystem formula)
    (hAe : M.ehull E₁ A < EHULL) (hBe : M.ehull E₁ B < EHULL)
    (hfit : M.fit (primOf M B) (primOf M A) = true)
    (hskip : ∀ e, (e ∈ L1 ∨ e ∈ L2 ∨ e ∈ L3) →
      e.chemsys ≠ M.compSystem formula)
    (hne : E₁ ≠ []) :
    unique_low_energy_comp M formula E method = Except.ok [A] := by
  have h := get_unique_first_representative M (M.compSystem formula) EHULL E₁
    A B L1 L2 L3 horder hA hB hAe hBe hfit hskip hne
  simp only [unique_low_energy_comp]
  rw [← hE₁def]
  exact h

/-- C4 (witness): the amended theorem at the same two candidates with A
listed first, the diagram entry list being the two candidates followed by
the appended elemental reference entries for A and B: the filter returns
exactly A. -/
theorem C4_dedup_first_representative_witness :
    unique_low_energy_comp Mstd "A-B"
        [Entry.mk 1 7 "A-B" 0, Entry.mk 2 7 "A-B" (1/50)] "GGA" =
      Except.ok [Entry.mk 1 7 "A-B" 0] :=
  C4_dedup_first_representative Mstd "A-B" "GGA"
    [Entry.mk 1 7 "A-B" 0, Entry.mk 2 7 "A-B" (1/50)]
    [Entry.mk 1 7 "A-B" 0, Entry.mk 2 7 "A-B" (1/50),
      Entry.mk 900 900 "A" 0, Entry.mk 901 901 "B" 0]
    (Entry.mk 1 7 "A-B" 0) (Entry.mk 2 7 "A-B" (1/50)) [] []
    [Entry.mk 900 900 "A" 0, Entry.mk 901 901 "B" 0]
    rfl rfl rfl rfl (by norm_num [Mstd, EHULL]) (by norm_num [Mstd, EHULL])
    (by decide)
    (by
      intro e he
      rcases he with h | h | h
      · cases h
      · cases h
      · simp only [List.mem_cons, List.not_mem_nil, or_false] at h
        rcases h with h | h <;> subst h <;> decide)
    (by simp)

/-- C6 (counterexample): for a single-element formula the chemical system
has no dash, so no elemental reference entries are appended and the empty
entry list reaches `PhaseDiagram(entries)`, whose construction fails —
`unique_low_energy_comp` errors instead of returning the empty set. -/
theorem C6_empty_input_counterexample :
    unique_low_energy_comp Mstd "Si" [] "GGA" =
      Except.error "PhaseDiagram: no entries" := by
  rfl

/-- C6 (amended): for a multi-element formula (dash in the chemical system)
with a non-empty elemental reference table whose entries belong to other
(single-element) systems, an empty candidate population yields the empty
output without error — the appended reference entries make the phase
diagram constructible and are filtered out again.  For a single-element
formula an empty population reaches the phase-diagram construction, which
fails. -/
theorem C6_empty_input_amended (M : PDModel) (formula f2 method : String)
    (hmulti : hasDash (M.compSystem formula) = true)
    (hrefs : M.elemRefs ((M.compSystem formula).splitOn "-") method ≠ [])
    (hcs : ∀ r ∈ M.elemRefs ((M.compSystem formula).splitOn "-") method,
      r.chemsys ≠ M.compSystem formula)
    (hsingle : hasDash (M.compSystem f2) = false) :
    unique_low_energy_comp M formula [] method = Except.ok [] ∧
      unique_low_energy_comp M f2 [] method =
        Except.error "PhaseDiagram: no entries" := by
  constructor
  · unfold unique_low_energy_comp
    simp only [hmulti, if_true, List.nil_append]
    unfold get_unique_low_energy
    rw [if_neg hrefs]
    have hall : ∀ e ∈ M.order (M.elemRefs
        ((M.compSystem formula).splitOn "-") method),
        e.chemsys ≠ M.compSystem formula := by
      intro e he
      exact hcs e ((M.orderPerm _).subset he)
    rw [← List.append_nil (M.order (M.elemRefs
      ((M.compSystem formula).splitOn "-") method))]
    rw [dedupLoop_skip M _ _ EHULL _ [] [] hall]
    rfl
  · unfold unique_low_energy_comp
    simp only [hsingle, Bool.false_eq_true, if_false]
    rfl

/-- C6 (witness): the amended theorem at the two-element system A-B (empty
input gives empty output) and the single-element formula Si (empty input
errors). -/
theorem C6_empty_input_witness :
    unique_low_energy_comp Mstd "A-B" [] "GGA" = Except.ok [] ∧
      unique_low_energy_comp Mstd "Si" [] "GGA" =
        Except.error "PhaseDiagram: no entries" :=
  C6_empty_input_amended Mstd "A-B" "Si" "GGA" (by decide) (by decide)
    (by decide) (by decide)

theorem pairwiseOfForallMem {α : Type} (l : List α) (r : α → α → Prop)
    (h : ∀ a ∈ l, ∀ b ∈ l, r a b) : l.Pairwise r := by
  induction l with
  | nil => exact List.Pairwise.nil
  | cons x xs ih =>
    refine List.Pairwise.cons (fun b hb => h x (by simp) b (by simp [hb])) (ih ?_)
    intro a ha b hb
    exact h a (by simp [ha]) b (by simp [hb])

theorem second_pass_perm_core (M : PDModel) (cs : String) (E₁ S out : List Entry)
    (hfirst : get_unique_low_energy M E₁ cs EHULL = Except.ok out)
    (hS : ∀ r ∈ S, r.chemsys ≠ cs)
    (hsubS : S ⊆ E₁)
    (hne : out ++ S ≠ []) :
    get_unique_low_energy M (out ++ S) cs EHULL =
        Except.ok (dedupLoop M (out ++ S) cs EHULL (M.order (out ++ S)) []) ∧
      (dedupLoop M (out ++ S) cs EHULL (M.order (out ++ S)) []).Perm out := by
  have hE₁ne : E₁ ≠ [] := by
    intro h0
    rw [get_unique_low_energy, if_pos h0] at hfirst
    simp at hfirst
  have hout : dedupLoop M E₁ cs EHULL (M.order E₁) [] = out := by
    rw [get_unique_low_energy, if_neg hE₁ne] at hfirst
    simpa using hfirst
  have hsub_out : ∀ e ∈ out, e ∈ E₁ := by
    intro e he
    rw [← hout] at he
    exact (M.orderPerm E₁).subset
      (dedupLoop_subset M E₁ cs EHULL (M.order E₁) [] e he)
  have hkeep1 : ∀ e ∈ out, keepEntry M E₁ cs EHULL e = true := by
    intro e he
    rw [← hout] at he
    exact dedupLoop_mem_keep M E₁ cs EHULL (M.order E₁) [] e he
  have hkeep_parts : ∀ e ∈ out, e.chemsys = cs ∧ M.ehull E₁ e < EHULL := by
    intro e he
    have hk := hkeep1 e he
    simp only [keepEntry, Bool.and_eq_true, beq_iff_eq, decide_eq_true_eq] at hk
    exact hk
  have hpr : out.Pairwise (fun a b => M.fit (primOf M b) (primOf M a) = false) := by
    have hp := dedupLoop_pairwise M E₁ cs EHULL (M.order E₁) []
    rw [hout] at hp
    exact hp
  have hsub₂ : out ++ S ⊆ E₁ := by
    intro x hx
    rcases List.mem_append.mp hx with h | h
    · exact hsub_out x h
    · exact hsubS h
  have hkeepR : ∀ r ∈ S, keepEntry M (out ++ S) cs EHULL r = false := by
    intro r hr
    simp [keepEntry, beq_eq_false_iff_ne.mpr (hS r hr)]
  have hkeep2 : ∀ e ∈ out, keepEntry M (out ++ S) cs EHULL e = true := by
    intro e he
    obtain ⟨h1, h2⟩ := hkeep_parts e he
    have hle := M.hullMono E₁ (out ++ S) e (List.mem_append_left S he) hsub₂
    simp [keepEntry, h1, lt_of_le_of_lt hle h2]
  have hsymm : Symmetric (fun a b =>
      keepEntry M (out ++ S) cs EHULL a = true →
      keepEntry M (out ++ S) cs EHULL b = true →
        (M.fit (primOf M b) (primOf M a) = false ∧
          M.fit (primOf M a) (primOf M b) = false)) := by
    intro a b hab kb ka
    exact ⟨(hab ka kb).2, (hab ka kb).1⟩
  have hpairE₂ : (out ++ S).Pairwise (fun a b =>
      keepEntry M (out ++ S) cs EHULL a = true →
      keepEntry M (out ++ S) cs EHULL b = true →
        (M.fit (primOf M b) (primOf M a) = false ∧
          M.fit (primOf M a) (primOf M b) = false)) := by
    rw [List.pairwise_append]
    refine ⟨?_, ?_, ?_⟩
    · refine hpr.imp ?_
      intro a b hab
      exact fun _ _ => ⟨hab, by rw [M.fitSymm]; exact hab⟩
    · refine pairwiseOfForallMem S _ ?_
      intro a ha b hb ka
      rw [hkeepR a ha] at ka
      cases ka
    · intro a ha b hb _ kb
      rw [hkeepR b hb] at kb
      cases kb
  have hpairO := ((M.orderPerm (out ++ S)).pairwise_iff
    (fun {a b} h => hsymm h)).mpr hpairE₂
  have hloop := dedupLoop_all_accepted M (out ++ S) cs EHULL
    (M.order (out ++ S)) []
    (fun e _ _ s hs => absurd hs (List.not_mem_nil s))
    (hpairO.imp (fun h ka kb => (h ka kb).1))
  have hfilter : (out ++ S).filter (keepEntry M (out ++ S) cs EHULL) = out := by
    rw [List.filter_append, List.filter_eq_self.mpr hkeep2,
      List.filter_eq_nil_iff.mpr (fun r hr => by simp [hkeepR r hr]),
      List.append_nil]
  constructor
  · rw [get_unique_low_energy, if_neg hne]
  · rw [hloop]
    have hperm := List.Perm.filter (keepEntry M (out ++ S) cs EHULL)
      (M.orderPerm (out ++ S))
    rw [hfilter] at hperm
    exact hperm

/-- C5 (counterexample): idempotence fails at a single-element formula whose
first output is empty: filtering a population holding one off-system entry
yields the empty set without error, but applying the filter to that empty
output reaches the phase-diagram construction with no entries and errors
instead of returning the empty set again. -/
theorem C5_idempotence_counterexample :
    unique_low_energy_comp Mstd "Si" [Entry.mk 3 3 "O" 0] "GGA" =
        Except.ok [] ∧
      unique_low_energy_comp Mstd "Si" [] "GGA" =
        Except.error "PhaseDiagram: no entries" := by
  constructor
  · rfl
  · rfl

/-- C5 (amended): the filter is idempotent up to order whenever its second
application has entries to build a phase diagram from: if the first pass on
population E returned `out`, the elemental reference entries belong to other
systems, and the second pass's entry list (out plus the re-appended
references for a multi-element formula, out alone for a single-element one)
is non-empty, then the second application succeeds and returns a permutation
of `out` — it removes nothing and adds nothing.  The non-emptiness proviso
is forced by the counterexample: a single-element formula with empty first
output errors on the second pass. -/
theorem C5_filter_idempotent (M : PDModel) (formula method : String)
    (E out : List Entry)
    (hfirst : unique_low_energy_comp M formula E method = Except.ok out)
    (hrefs_cs : ∀ r ∈ M.elemRefs ((M.compSystem formula).splitOn "-") method,
      r.chemsys ≠ M.compSystem formula)
    (hne : (if hasDash (M.compSystem formula) then
        out ++ M.elemRefs ((M.compSystem formula).splitOn "-") method
      else out) ≠ []) :
    ∃ out₂, unique_low_energy_comp M formula out method = Except.ok out₂ ∧
      out₂.Perm out := by
  cases hd : hasDash (M.compSystem formula) with
  | true =>
    have hfirst' : get_unique_low_energy M
        (E ++ M.elemRefs ((M.compSystem formula).splitOn "-") method)
        (M.compSystem formula) EHULL = Except.ok out := by
      simp only [unique_low_energy_comp] at hfirst
      rw [if_pos hd] at hfirst
      exact hfirst
    have hne' : out ++ M.elemRefs ((M.compSystem formula).splitOn "-") method
        ≠ [] := by
      rw [hd] at hne
      simpa using hne
    have hcore := second_pass_perm_core M (M.compSystem formula)
      (E ++ M.elemRefs ((M.compSystem formula).splitOn "-") method)
      (M.elemRefs ((M.compSystem formula).splitOn "-") method) out
      hfirst' hrefs_cs (List.subset_append_right _ _) hne'
    refine ⟨_, ?_, hcore.2⟩
    simp only [unique_low_energy_comp]
    rw [if_pos hd]
    exact hcore.1
  | false =>
    have hfirst' : get_unique_low_energy M E (M.compSystem formula) EHULL =
        Except.ok out := by
      simp only [unique_low_energy_comp] at hfirst
      rw [if_neg (by simp [hd])] at hfirst
      exact hfirst
    have hne' : out ++ ([] : List Entry) ≠ [] := by
      rw [hd] at hne
      simpa using hne
    have hcore := second_pass_perm_core M (M.compSystem formula) E [] out
      hfirst' (by simp) (List.nil_subset E) hne'
    rw [List.append_nil] at hcore
    refine ⟨_, ?_, hcore.2⟩
    simp only [unique_low_energy_comp]
    rw [if_neg (by simp [hd])]
    exact hcore.1

/-- C5 (witness): the amended theorem at the two-element formula A-B with a
one-candidate population, whose first output is that candidate. -/
theorem C5_filter_idempotent_witness :
    ∃ out₂,
      unique_low_energy_comp Mstd "A-B" [Entry.mk 1 7 "A-B" 0] "GGA" =
          Except.ok out₂ ∧
        out₂.Perm [Entry.mk 1 7 "A-B" 0] :=
  C5_filter_idempotent Mstd "A-B" "GGA" [Entry.mk 1 7 "A-B" 0]
    [Entry.mk 1 7 "A-B" 0]
    (by
      simp only [unique_low_energy_comp, Mstd]
      rw [if_pos (by decide)]
      unfold get_unique_low_energy
      rw [if_neg (by simp)]
      norm_num [dedupLoop, primOf, EHULL]
      all_goals decide)
    (by decide) (by decide)

theorem pairwise_ne_of_mem {α : Type} (g : α → Nat) (l : List α)
    (h : l.Pairwise (fun a b => g a ≠ g b)) :
    ∀ a ∈ l, ∀ b ∈ l, a ≠ b → g a ≠ g b := by
  induction l with
  | nil => simp
  | cons x rest ih =>
    rcases List.pairwise_cons.mp h with ⟨hx, hrest⟩
    intro a ha b hb hab
    rcases List.mem_cons.mp ha with ha0 | ha0 <;>
      rcases List.mem_cons.mp hb with hb0 | hb0
    · subst ha0; subst hb0; exact absurd rfl hab
    · subst ha0; exact hx b hb0
    · subst hb0; exact fun hg => hx a ha0 hg.symm
    · exact ih hrest a ha0 b hb0 hab

theorem queryChemsys_unique (t : List ChemsysRow) (c : String) (r : ChemsysRow)
    (huniq : t.Pairwise (fun a b => a.chemsys ≠ b.chemsys))
    (hr : r ∈ t) (hc : r.chemsys = c) :
    queryChemsys t c = [r] := by
  induction t with
  | nil => cases hr
  | cons x rest ih =>
    rcases List.pairwise_cons.mp huniq with ⟨hx, hrest⟩
    rcases List.mem_cons.mp hr with hr0 | hr0
    · subst hr0
      have hnil : List.filter (fun r2 => r2.chemsys == c) rest = [] := by
        rw [List.filter_eq_nil_iff]
        intro a ha
        simp only [beq_iff_eq]
        intro hac
        exact hx a ha (by rw [hc, hac])
      unfold queryChemsys
      rw [List.filter_cons, if_pos (by simp [hc]), hnil]
    · have hxne : ¬(x.chemsys == c) = true := by
        simp only [beq_iff_eq]
        intro hxc
        exact hx r hr0 (by rw [hxc, ← hc])
      unfold queryChemsys
      rw [List.filter_cons, if_neg hxne]
      exact ih hrest hr0

theorem cleanup_preserves_row (F : List String) (t : List ChemsysRow)
    (r : ChemsysRow)
    (hids : t.Pairwise (fun a b => a.rid ≠ b.rid))
    (hrt : r ∈ t)
    (hF : ∀ c ∈ F, c ≠ r.chemsys) :
    ∀ cur, r ∈ cur → cur ⊆ t → r ∈ cleanup_failed_systems F cur := by
  induction F with
  | nil =>
    intro cur hr _
    exact hr
  | cons c F' ih =>
    intro cur hr hsub
    have hF' : ∀ c2 ∈ F', c2 ≠ r.chemsys := fun c2 h2 => hF c2 (by simp [h2])
    simp only [cleanup_failed_systems]
    cases hq : queryChemsys cur c with
    | nil =>
      exact ih hF' cur hr hsub
    | cons r0 rest0 =>
      have hr0 : r0 ∈ cur ∧ (r0.chemsys == c) = true := by
        have : r0 ∈ queryChemsys cur c := by rw [hq]; simp
        exact List.mem_filter.mp this
      have hner : r ≠ r0 := by
        intro he
        have hcc : r0.chemsys = c := by simpa using hr0.2
        exact hF c (by simp) (by rw [← hcc, ← he])
      have hrid : r.rid ≠ r0.rid :=
        pairwise_ne_of_mem ChemsysRow.rid t hids r hrt r0 (hsub hr0.1) hner
      have hmem : r ∈ chemsys_delete_row cur r0 := by
        unfold chemsys_delete_row
        rw [List.mem_filter]
        exact ⟨hr, by simpa using hrid⟩
      have hsub' : chemsys_delete_row cur r0 ⊆ t := by
        intro x hx
        exact hsub (List.mem_filter.mp hx).1
      exact ih hF' (chemsys_delete_row cur r0) hmem hsub'

/-- C9: the cleanup run after a failed generation stage deletes only
`DBChemsys` rows whose `gen_structures` field is not ready: with the table's
uniqueness constraints (unique primary key and unique `chemsys`), every row
already marked `"Ready"` survives the whole failure path of
`inspect_csp_cals` / `inspect_gen_calcs` — the collection loop never lists
its system (the first and only matching row is truthy) and the deletion loop
only removes rows of collected systems. -/
theorem C9_ready_rows_survive (css : List String) (t : List ChemsysRow)
    (r : ChemsysRow)
    (huniq : t.Pairwise (fun a b => a.chemsys ≠ b.chemsys))
    (hids : t.Pairwise (fun a b => a.rid ≠ b.rid))
    (hr : r ∈ t) (hready : r.gen_structures = some "Ready") :
    r ∈ inspect_failure_cleanup css t := by
  unfold inspect_failure_cleanup
  refine cleanup_preserves_row (failed_chemsys css t) t r hids hr ?_ t hr
    (fun x hx => hx)
  intro c hc
  unfold failed_chemsys at hc
  rcases List.mem_filter.mp hc with ⟨hcin, hcond⟩
  intro hcr
  rw [queryChemsys_unique t c r huniq hr hcr.symm] at hcond
  simp [truthy, hready] at hcond

/-- C9 (witness): a two-row table where the A-B row is ready and the A row
is not; the failure path for both systems removes only the A row. -/
theorem C9_ready_rows_survive_witness :
    ChemsysRow.mk 1 "A-B" (some "Ready") ∈
      inspect_failure_cleanup ["A-B", "A"]
        [ChemsysRow.mk 1 "A-B" (some "Ready"), ChemsysRow.mk 2 "A" none] :=
  C9_ready_rows_survive ["A-B", "A"]
    [ChemsysRow.mk 1 "A-B" (some "Ready"), ChemsysRow.mk 2 "A" none]
    (ChemsysRow.mk 1 "A-B" (some "Ready"))
    (by decide) (by decide) (by decide) (by decide)

theorem fe_pass_spec (comps : List CompRow) (status : String) :
    ∀ f : List FrontendRow,
      (∀ r ∈ f, comps.filter (fun c => c.composition == r.composition) ≠ []) →
      ∃ f', fe_pass comps status f = some f' ∧
        f'.map FrontendRow.composition = f.map FrontendRow.composition := by
  intro f
  induction f with
  | nil =>
    intro _
    exact ⟨[], rfl, rfl⟩
  | cons r rest ih =>
    intro h
    obtain ⟨f2, hf2, hmap⟩ := ih (fun x hx => h x (by simp [hx]))
    by_cases hs : (r.status == status) = true
    · cases hq : comps.filter (fun c => c.composition == r.composition) with
      | nil => exact absurd hq (h r (by simp))
      | cons c0 cs0 =>
        refine ⟨FrontendRow.mk r.username r.composition c0.status
          (some c0.step_status) :: f2, ?_, ?_⟩
        · simp [fe_pass, hs, fe_sync_row, hq, hf2]
        · simp [hmap]
    · refine ⟨r :: f2, ?_, by simp [hmap]⟩
      simp [fe_pass, hs, hf2]

theorem update_dbfrontend_some (st : IntakeState)
    (hwf : ∀ r ∈ st.frontend,
      st.comps.filter (fun c => c.composition == r.composition) ≠ []) :
    ∃ st', update_dbfrontend st = some st' ∧ st'.comps = st.comps ∧
      st'.chemsys_names = st.chemsys_names ∧ st'.submitted = st.submitted := by
  have hstep : ∀ (f1 f2 : List FrontendRow),
      f1.map FrontendRow.composition = f2.map FrontendRow.composition →
      (∀ r ∈ f2, st.comps.filter (fun c => c.composition == r.composition) ≠ []) →
      ∀ r ∈ f1, st.comps.filter (fun c => c.composition == r.composition) ≠ [] := by
    intro f1 f2 hm hw r hr
    have hmem : r.composition ∈ f2.map FrontendRow.composition := by
      rw [← hm]
      exact List.mem_map_of_mem _ hr
    obtain ⟨r0, hr0, hcomp⟩ := List.mem_map.mp hmem
    rw [← hcomp]
    exact hw r0 hr0
  obtain ⟨f1, h1, m1⟩ := fe_pass_spec st.comps "Created" st.frontend hwf
  obtain ⟨f2, h2, m2⟩ := fe_pass_spec st.comps "Running" f1
    (hstep f1 st.frontend m1 hwf)
  obtain ⟨f3, h3, m3⟩ := fe_pass_spec st.comps "Failed" f2
    (hstep f2 st.frontend (m2.trans m1) hwf)
  refine ⟨{ st with frontend := f3 }, ?_, rfl, rfl, rfl⟩
  simp [update_dbfrontend, h1, h2, h3]

theorem start_pipeline_spec (subsystems : String → List String) (f : String)
    (st : IntakeState)
    (hwf : ∀ r ∈ st.frontend,
      st.comps.filter (fun c => c.composition == r.composition) ≠ []) :
    ∃ st', start_pipeline subsystems f st = some st' ∧
      st'.submitted = st.submitted ++ [f] ∧ st'.comps = st.comps := by
  obtain ⟨st', h, hc, hn, hs⟩ := update_dbfrontend_some
    (submit_mainworkchain f (IntakeState.mk st.frontend st.comps
      (st.chemsys_names ++ (subsystems f).filter
        (fun c => ! st.chemsys_names.contains c)) st.submitted)) hwf
  refine ⟨st', ?_, ?_, ?_⟩
  · simpa [start_pipeline] using h
  · rw [hs]
    rfl
  · rw [hc]
    rfl

/-- C7: intake deduplication.  For an already-seen (requester, formula) pair
— the frontend table holds a row for that user and composition — a request
against a `Running` composition starts no new pipeline and changes nothing
(part 1); a request with `retry=false` likewise changes nothing (part 2); a
request with `retry=true` against a non-`Running` composition submits a
fresh `MainWorkChain` for the formula and leaves the composition table
unchanged (part 3).  A request for an unseen composition adds the
composition row and submits a `MainWorkChain` (part 4). -/
theorem C7_intake_dedup (subsystems : String → List String)
    (reduce : String → String) (e : SubmissionEntry) (st : IntakeState)
    (f : String) (hf : reduce e.chemical_formula = f) :
    ((st.frontend.filter (fun r => r.composition == f)).any
        (fun r => r.username == e.user) = true →
      ∀ c rest, st.comps.filter (fun x => x.composition == f) = c :: rest →
        c.status = "Running" →
        add_from_frontend_step subsystems reduce e st = some st) ∧
    ((st.frontend.filter (fun r => r.composition == f)).any
        (fun r => r.username == e.user) = true →
      e.retry = false →
      st.comps.filter (fun x => x.composition == f) ≠ [] →
      add_from_frontend_step subsystems reduce e st = some st) ∧
    ((st.frontend.filter (fun r => r.composition == f)).any
        (fun r => r.username == e.user) = true →
      e.retry = true →
      (∀ r ∈ st.frontend,
        st.comps.filter (fun c => c.composition == r.composition) ≠ []) →
      ∀ c rest, st.comps.filter (fun x => x.composition == f) = c :: rest →
        c.status ≠ "Running" →
        ∃ st', add_from_frontend_step subsystems reduce e st = some st' ∧
          st'.submitted = st.submitted ++ [f] ∧ st'.comps = st.comps) ∧
    (st.frontend.filter (fun r => r.composition == f) = [] →
      st.comps.filter (fun x => x.composition == f) = [] →
      (∀ r ∈ st.frontend,
        st.comps.filter (fun c => c.composition == r.composition) ≠ []) →
      ∃ st', add_from_frontend_step subsystems reduce e st = some st' ∧
        st'.submitted = st.submitted ++ [f] ∧
        CompRow.mk f "Created" [] ∈ st'.comps) := by
  refine ⟨?_, ?_, ?_, ?_⟩
  · intro huser c rest hcomp hrun
    cases hre : e.retry with
    | false => simp [add_from_frontend_step, hf, huser, hcomp, hre]
    | true => simp [add_from_frontend_step, hf, huser, hcomp, hre, hrun]
  · intro huser hre hcomp
    cases hq : st.comps.filter (fun x => x.composition == f) with
    | nil => exact absurd hq hcomp
    | cons c rest => simp [add_from_frontend_step, hf, huser, hq, hre]
  · intro huser hre hwf c rest hcomp hcrun
    obtain ⟨st', hsp, hsub, hcomps⟩ := start_pipeline_spec subsystems f st hwf
    refine ⟨st', ?_, hsub, hcomps⟩
    have hbeq : (c.status == "Running") = false := beq_eq_false_iff_ne.mpr hcrun
    simp only [add_from_frontend_step, hf, huser, hcomp, hre, hbeq, if_true,
      List.isEmpty_cons, Bool.false_eq_true, if_false, not_true_eq_false,
      ite_false, ite_true]
    exact hsp
  · intro hfe hcomp hwf
    have hwf2 : ∀ r ∈ (IntakeState.mk
        (st.frontend ++ [FrontendRow.mk e.user f "Created" none])
        (st.comps ++ [CompRow.mk f "Created" []])
        st.chemsys_names st.submitted).frontend,
        (IntakeState.mk
          (st.frontend ++ [FrontendRow.mk e.user f "Created" none])
          (st.comps ++ [CompRow.mk f "Created" []])
          st.chemsys_names st.submitted).comps.filter
          (fun c => c.composition == r.composition) ≠ [] := by
      intro r hr
      simp only [List.mem_append, List.mem_singleton] at hr
      rcases hr with hr | hr
      · intro h0
        rw [List.filter_append, List.append_eq_nil] at h0
        exact hwf r hr h0.1
      · subst hr
        rw [List.filter_append]
        intro h0
        rw [List.append_eq_nil] at h0
        have h1 := h0.2
        simp at h1
    obtain ⟨st', hsp, hsub, hcomps⟩ := start_pipeline_spec subsystems f
      (IntakeState.mk
        (st.frontend ++ [FrontendRow.mk e.user f "Created" none])
        (st.comps ++ [CompRow.mk f "Created" []])
        st.chemsys_names st.submitted) hwf2
    refine ⟨st', ?_, by simpa using hsub, ?_⟩
    · have huser : (st.frontend.filter (fun r => r.composition == f)).any
          (fun r => r.username == e.user) = false := by
        rw [hfe]
        rfl
      simp only [add_from_frontend_step, hf, huser, Bool.false_eq_true,
        if_false, ite_false]
      simp only [hcomp, List.isEmpty_nil, if_true, ite_true]
      exact hsp
    · rw [hcomps]
      simp

/-- C7 (witness): a repeat request by the same user with `retry=true` for a
composition whose status is `Done` submits exactly one fresh main workchain
and leaves the composition table unchanged. -/
theorem C7_intake_dedup_witness :
    ∃ st', add_from_frontend_step (fun _ => []) (fun x => x)
        (SubmissionEntry.mk "alice" "TiO2" "M1" "R1" true)
        (IntakeState.mk [FrontendRow.mk "alice" "TiO2" "Created" none]
          [CompRow.mk "TiO2" "Done" []] [] []) = some st' ∧
      st'.submitted = ["TiO2"] ∧
      st'.comps = [CompRow.mk "TiO2" "Done" []] :=
  (C7_intake_dedup (fun _ => []) (fun x => x)
      (SubmissionEntry.mk "alice" "TiO2" "M1" "R1" true)
      (IntakeState.mk [FrontendRow.mk "alice" "TiO2" "Created" none]
        [CompRow.mk "TiO2" "Done" []] [] [])
      "TiO2" rfl).2.2.1
    (by decide) rfl (by decide) (CompRow.mk "TiO2" "Done" []) []
    (by decide) (by decide)

end UVSib
